import Mathlib

/- Verification of the transfer core of the krokodyl application
   (package main, app.go): the in-memory transfer registry, the send
   and receive execution units, the overwrite arbitration and the
   file-diff helper.  Go slices of structs are modelled with an
   explicit heap of backing arrays where aliasing is at stake; the Go
   machine integers involved (int64 file sizes, int progress) carry
   values far below the overflow boundary in every claim, so they are
   modelled as Int. -/

namespace Krokodyl

/-- Status values of a transfer: the six FileTransferStatus string
constants of app.go ("preparing", "waiting", "sending", "receiving",
"error", "completed"). -/
inductive FTStatus
  | preparing
  | waiting
  | sending
  | receiving
  | error
  | completed
  deriving Repr, DecidableEq

/-- The FileTransfer struct of app.go (field Code has Go zero value ""
when absent). -/
structure FileTransfer where
  ID : String
  Name : String
  Files : List String
  Size : Int
  Progress : Int
  Status : FTStatus
  Code : String
  deriving Repr, DecidableEq

/-- Model of the Go memory reachable from App.transfers: `arrays` is
the list of backing arrays ever allocated for the slice (in allocation
order) and `cur` is the index of the array the slice `a.transfers`
currently points at.  `append([]FileTransfer{t}, a.transfers...)`
always produces a fresh backing array holding `t` followed by copies
of the current records, which is how registration is modelled below. -/
structure GoApp where
  arrays : List (List FileTransfer)
  cur : Nat
  deriving Repr, DecidableEq

/-- A pointer into a backing array, as produced by `&a.transfers[0]`. -/
structure GoPtr where
  arr : Nat
  idx : Nat
  deriving Repr, DecidableEq

/-- startup: `a.transfers = make([]FileTransfer, 0)` (one empty backing
array, pointed at by the slice). -/
def appStartup : GoApp := ⟨[[]], 0⟩

/-- GetTransfers: the records of the backing array the slice currently
points at. -/
def goTransfers (s : GoApp) : List FileTransfer :=
  (s.arrays.get? s.cur).getD []

/-- Len: the number of transfers in history. -/
def goLen (s : GoApp) : Nat := (goTransfers s).length

/-- getSendId: fmt.Sprintf("send-%d", a.Len()). -/
def getSendId (s : GoApp) : String := "send-" ++ toString (goLen s)

/-- getReceiveId: fmt.Sprintf("receive-%d", a.Len()). -/
def getReceiveId (s : GoApp) : String := "receive-" ++ toString (goLen s)

/-- Registration, `a.transfers = append([]FileTransfer{t}, a.transfers...)`: allocate
a fresh backing array holding `t` followed by copies of the current
records, repoint the slice at it, and hand back the pointer
`&a.transfers[0]` that the execution unit keeps. -/
def registerGo (t : FileTransfer) (s : GoApp) : GoApp × GoPtr :=
  (⟨s.arrays ++ [t :: goTransfers s], s.arrays.length⟩, ⟨s.arrays.length, 0⟩)

/-- Replace the element at index `n` (no effect when out of range),
like an assignment through an index into a Go array. -/
def listModify {α : Type} (l : List α) (n : Nat) (f : α → α) : List α :=
  match l, n with
  | [], _ => []
  | a :: t, 0 => f a :: t
  | a :: t, n + 1 => a :: listModify t n f

/-- A store through the pointer an execution unit holds
(`transfer.Status = ...` and the like): it mutates the pointed-at cell
of the pointed-at backing array, wherever the slice points now. -/
def writeField (s : GoApp) (p : GoPtr) (f : FileTransfer → FileTransfer) : GoApp :=
  ⟨listModify s.arrays p.arr (fun a => listModify a p.idx f), s.cur⟩

/-- Assignment `transfer.Status = st` performed by an execution unit through its
retained pointer. -/
def writeStatus (s : GoApp) (p : GoPtr) (st : FTStatus) : GoApp :=
  writeField s p (fun r => { r with Status := st })

/-- Result of os.Stat on the file handed to SendFile. -/
structure StatInfo where
  name : String
  size : Int
  deriving Repr, DecidableEq

/-- SendFile after a successful stat: build the record (the id is read
off the registry length before insertion), register it, and hand the
background unit the pointer `&a.transfers[0]`.  Returns (id, state,
pointer). -/
def sendFileGo (info : StatInfo) (s : GoApp) : String × GoApp × GoPtr :=
  let t : FileTransfer :=
    { ID := getSendId s, Name := info.name, Files := [info.name],
      Size := info.size, Progress := 0, Status := .preparing, Code := "" }
  let r := registerGo t s
  (t.ID, r.1, r.2)

/-- ReceiveFile, synchronous part: build the placeholder record,
register it, hand the background unit the pointer. -/
def receiveFileGo (code : String) (s : GoApp) : String × GoApp × GoPtr :=
  let t : FileTransfer :=
    { ID := getReceiveId s, Name := "Preparing to receive...", Files := [],
      Size := 0, Progress := 0, Status := .preparing, Code := code }
  let r := registerGo t s
  (t.ID, r.1, r.2)

/-- One registration request: a send (with its stat result) or a
receive (with its code). -/
inductive RegAction
  | send (info : StatInfo)
  | recv (code : String)
  deriving Repr

/-- Run a sequence of registrations (the synchronous parts of
SendFile/ReceiveFile) and collect the returned ids in order. -/
def runRegs : GoApp → List RegAction → List String × GoApp
  | s, [] => ([], s)
  | s, a :: rest =>
      let step : String × GoApp :=
        match a with
        | .send info => let r := sendFileGo info s; (r.1, r.2.1)
        | .recv c => let r := receiveFileGo c s; (r.1, r.2.1)
      let next := runRegs step.2 rest
      (step.1 :: next.1, next.2)

/-- Identifier pattern asserted by the specification (claim C7): the
registration performed when the registry holds `n` records gets the
direction tag followed by `n`, and the counter is shared across both
directions.  This definition follows the claim's wording and is
compared with the ids `runRegs` actually produces. -/
def claimedIds : Nat → List RegAction → List String
  | _, [] => []
  | n, a :: rest =>
      ((match a with
        | .send _ => "send-"
        | .recv _ => "receive-") ++ toString n) :: claimedIds (n + 1) rest

theorem goTransfers_registerGo (t : FileTransfer) (s : GoApp) :
    goTransfers (registerGo t s).1 = t :: goTransfers s := by
  simp [goTransfers, registerGo, List.getElem?_concat_length]

theorem goLen_registerGo (t : FileTransfer) (s : GoApp) :
    goLen (registerGo t s).1 = goLen s + 1 := by
  simp [goLen, goTransfers_registerGo]

theorem runRegs_ids (acts : List RegAction) :
    ∀ s : GoApp, (runRegs s acts).1 = claimedIds (goLen s) acts := by
  induction acts with
  | nil => intro s; rfl
  | cons a rest ih =>
      intro s
      cases a with
      | send info =>
          simp only [runRegs, sendFileGo, claimedIds, getSendId]
          rw [ih, goLen_registerGo]
      | recv c =>
          simp only [runRegs, receiveFileGo, claimedIds, getReceiveId]
          rw [ih, goLen_registerGo]

/-- C7: for every sequence of registrations (any mix of sends and
receives) starting from startup, the id handed out to the k-th
registration is "send-n" or "receive-n" according to its direction,
where n is the registry's count immediately before that registration:
0 for the first transfer, 1 for the second, and so on, the counter
being shared across both directions. -/
theorem claim7_shared_counter_ids (acts : List RegAction) :
    (runRegs appStartup acts).1 = claimedIds 0 acts := by
  have h := runRegs_ids acts appStartup
  simpa [goLen, goTransfers, appStartup] using h

/-- C8: registration prepends, so after registering t1, t2, t3 in that
order GetTransfers returns them most-recent-first: t3, t2, t1. -/
theorem claim8_most_recent_first (t1 t2 t3 : FileTransfer) :
    goTransfers (registerGo t3 (registerGo t2 (registerGo t1 appStartup).1).1).1
      = [t3, t2, t1] := by
  simp [goTransfers_registerGo]
  rfl

/-- C1 (the code defeats the claim): after a second transfer is
registered, the first unit's pointer no longer aliases the registry's
entry, because registration copies every record into a fresh backing
array.  Concretely: register send-0, register send-1, then let the
first unit set its status to completed through its pointer; a later
GetTransfers still shows send-0 as preparing.  The second conjunct
shows the same store is visible when no registration intervened, so
the loss is caused by the intervening registration alone. -/
theorem claim1_stale_alias_after_registration :
    (((goTransfers
        (writeStatus (sendFileGo ⟨"b.txt", 7⟩ (sendFileGo ⟨"a.txt", 13⟩ appStartup).2.1).2.1
          (sendFileGo ⟨"a.txt", 13⟩ appStartup).2.2 .completed)).map
          (fun t => (t.ID, t.Status)))
        = [("send-1", .preparing), ("send-0", .preparing)])
    ∧ (((goTransfers
        (writeStatus (sendFileGo ⟨"a.txt", 13⟩ appStartup).2.1
          (sendFileGo ⟨"a.txt", 13⟩ appStartup).2.2 .completed)).map
          (fun t => (t.ID, t.Status)))
        = [("send-0", .completed)]) := by
  constructor <;> rfl

/-- State touched by RespondToOverwrite: the transfer history and the
overwriteResponses map, the latter modelled by the list of transfer
ids that currently hold a pending response channel. -/
structure OverwriteState where
  transfers : List FileTransfer
  pending : List String
  deriving Repr, DecidableEq

/-- RespondToOverwrite(transferID, response): when a channel is pending
for the id, the response is delivered to the blocked waiter (second
component) and the map entry is deleted; otherwise nothing happens.
The function is total: the no-entry branch performs no channel
operation, so it cannot block, and it touches no state. -/
def respondToOverwrite (s : OverwriteState) (tid resp : String) :
    OverwriteState × Option String :=
  if s.pending.contains tid then
    (⟨s.transfers, s.pending.erase tid⟩, some resp)
  else (s, none)

/-- C6: for a transfer id with no pending overwrite decision (never
requested, or already resolved and hence deleted from the map),
RespondToOverwrite returns at once, delivers nothing, and leaves the
transfer history and the pending-decision map unchanged. -/
theorem claim6_respond_unknown_noop (s : OverwriteState) (tid resp : String)
    (h : s.pending.contains tid = false) :
    respondToOverwrite s tid resp = (s, none) := by
  have h' : tid ∉ s.pending := by simpa using h
  simp [respondToOverwrite, h']

/-- Witness for C6 at a concrete input: responding "yes" for an id that
was never requested, on a freshly started app. -/
theorem claim6_respond_unknown_noop_witness :
    respondToOverwrite ⟨[], []⟩ "nonexistent" "yes" = (⟨[], []⟩, none) :=
  claim6_respond_unknown_noop ⟨[], []⟩ "nonexistent" "yes" rfl

/-- A plain file's metadata and byte content. -/
structure FileEntry where
  size : Int
  content : String
  deriving Repr, DecidableEq

/-- A flat directory, mapping base names to file entries. -/
abbrev Dir := List (String × FileEntry)

/-- Look a base name up in a flat directory. -/
def lookupDir (d : Dir) (n : String) : Option FileEntry :=
  match d with
  | [] => none
  | p :: rest => if p.1 = n then some p.2 else lookupDir rest n

/-- Drop the entry of a base name. -/
def removeDir (d : Dir) (n : String) : Dir :=
  match d with
  | [] => []
  | p :: rest => if p.1 = n then removeDir rest n else p :: removeDir rest n

/-- Store an entry under a base name, replacing any previous one (the
effect of os.Rename on the target directory: the name ends up holding
the moved file). -/
def setDir (d : Dir) (n : String) (e : FileEntry) : Dir :=
  (n, e) :: removeDir d n

/-- filepath.Base for slash-separated paths: the last non-empty
component; "." for the empty path, "/" when only separators remain. -/
def filepathBase (p : String) : String :=
  if p = "" then "."
  else
    match ((p.splitOn "/").filter (fun c => !(c == ""))).getLast? with
    | some c => c
    | none => "/"

/-- getFileDiff(file1, file2) over a read oracle `fs` (os.ReadFile:
some content, or none when the path cannot be read): an error as soon
as either read fails; the fixed sentinel when the contents coincide;
otherwise the two unified-style headers built from the base names,
followed by the coarse marker. -/
def getFileDiff (fs : String → Option String) (file1 file2 : String) :
    Option String :=
  match fs file1 with
  | none => none
  | some f1 =>
      match fs file2 with
      | none => none
      | some f2 =>
          if f1 = f2 then some "Files are identical."
          else some ("--- a/" ++ filepathBase file1 ++ "\n"
            ++ "+++ b/" ++ filepathBase file2 ++ "\n"
            ++ "File content differs.")

/-- filepath.Join of a directory and one clean component. -/
def joinPath (d f : String) : String := d ++ "/" ++ f

/-- The files readable during one overwrite prompt: the existing
destination file (just stat'd, content `destContent`) and, when a
top-level temporary file of that base name exists, the incoming file. -/
def twoFileFs (destPath destContent srcPath : String) (src? : Option String) :
    String → Option String :=
  fun p =>
    if p = destPath then some destContent
    else if p = srcPath then src? else none

/-- A file materialized in the temporary area by the collaborator:
`dirs` is the chain of subdirectory names below the temporary
directory (empty for a top-level file), then base name, size and
content as reported by the walk in listFiles. -/
structure RFile where
  dirs : List String
  base : String
  size : Int
  content : String
  deriving Repr, DecidableEq

/-- The OverwritePrompt struct of app.go. -/
structure OverwritePrompt where
  transferId : String
  fileName : String
  oldSize : Int
  newSize : Int
  diff : String
  deriving Repr, DecidableEq

/-- State of the finalization loop of performReceive: current
destination directory, remaining top-level files of the temporary
area, accumulated fileNames and totalSize, prompts emitted so far, and
the base names handled so far in loop order (an observation of the
iteration, used to state order properties). -/
structure LoopState where
  dest : Dir
  temp : Dir
  names : List String
  total : Int
  prompts : List OverwritePrompt
  handled : List String
  deriving Repr, DecidableEq

/-- The move part of one loop iteration. os.MkdirAll of
filepath.Dir(destPath) always succeeds: destPath joins the destination
directory with a base name, so its parent is the destination directory
itself, which exists (performReceive chdir'd into it).  os.Rename of
tempDir/base succeeds exactly when the temporary area holds a
top-level file of that base name; it replaces any destination entry.
On rename failure the unit sets status error and returns: the second
component is false. -/
def moveFile (st : LoopState) (f : RFile) : LoopState × Bool :=
  match lookupDir st.temp f.base with
  | none => (st, false)
  | some src =>
      ({ st with
          dest := setDir st.dest f.base src
          temp := removeDir st.temp f.base
          names := st.names ++ [f.base]
          total := st.total + f.size }, true)

/-- One iteration of the finalization loop, for the walked file `f`:
record the file as handled; when destPath already exists, compute the
diff (falling back to the fixed message when a read fails), emit the
prompt, and block until the operator's answer arrives — any answer
other than the literal "yes" skips the file; otherwise, and when there
is no collision, move the file.  `answer` models the operator: the
response eventually delivered for the prompt on each file name. -/
def stepFile (tid destDir tmpDir : String) (answer : String → String)
    (st : LoopState) (f : RFile) : LoopState × Bool :=
  let st1 := { st with handled := st.handled ++ [f.base] }
  let srcPath := joinPath tmpDir f.base
  let destPath := joinPath destDir f.base
  match lookupDir st1.dest f.base with
  | some e =>
      let src? := (lookupDir st1.temp f.base).map FileEntry.content
      let diffText :=
        match getFileDiff (twoFileFs destPath e.content srcPath src?) destPath srcPath with
        | some d => d
        | none => "Could not generate file difference."
      let st2 := { st1 with
        prompts := st1.prompts ++ [⟨tid, f.base, e.size, f.size, diffText⟩] }
      if answer f.base ≠ "yes" then (st2, true)
      else moveFile st2 f
  | none => moveFile st1 f

/-- The finalization loop over the walked files in iteration order;
stops with false as soon as an iteration fails (rename failure). -/
def runLoop (tid destDir tmpDir : String) (answer : String → String) :
    LoopState → List RFile → LoopState × Bool
  | st, [] => (st, true)
  | st, f :: rest =>
      let r := stepFile tid destDir tmpDir answer st f
      if r.2 then runLoop tid destDir tmpDir answer r.1 rest else (r.1, false)

/-- The top-level files of the temporary area: only these are reachable
as tempDir/base by the moves (nested files live below
subdirectories). -/
def initTemp (files : List RFile) : Dir :=
  files.filterMap
    (fun f => if f.dirs = [] then some (f.base, ⟨f.size, f.content⟩) else none)

/-- The whole finalization phase of performReceive: `files` is the set
materialized in the temporary area, `order` the iteration order of the
Go map returned by listFiles — the language leaves map iteration order
unspecified (and the runtime randomizes it), so the order is a
parameter ranging over the permutations of the set. -/
def receiveFinalize (tid destDir tmpDir : String) (files order : List RFile)
    (dest0 : Dir) (answer : String → String) : LoopState × Bool :=
  runLoop tid destDir tmpDir answer ⟨dest0, initTemp files, [], 0, [], []⟩ order

/-- The display name computed after the loop: first moved name, "<1st>
and N more" when several, the fixed placeholder when none moved. -/
def displayName (names : List String) : String :=
  match names with
  | [] => "File received"
  | n :: rest =>
      if rest.length = 0 then n
      else n ++ " and " ++ toString rest.length ++ " more"

/-- Outcome of the blocking croc Receive call: it may never return
(hang — the code races no timer against it), return an error, or
succeed. -/
inductive RecvCall
  | hang
  | fail
  | ok
  deriving Repr, DecidableEq

/-- Environment of one performReceive run: whether os.Getwd,
os.Chdir(destinationPath), os.MkdirTemp, os.Chdir(tempDir) and
croc.New succeed, the outcome of the Receive call, whether listFiles
succeeds, the materialized files and their map iteration order, the
prior content of the destination directory, and the operator's
overwrite answers. -/
structure RecvEnv where
  getwdOk : Bool
  chdirOk : Bool
  mkTempOk : Bool
  chdirTmpOk : Bool
  newOk : Bool
  call : RecvCall
  listOk : Bool
  files : List RFile
  order : List RFile
  dest0 : Dir
  answer : String → String

/-- Observable outcome of one performReceive run: the successive values
taken by transfer.Status (starting from the preparing set at
registration), whether the unit is left blocked inside the Receive
call, and the final record fields and destination directory. -/
structure RecvOutcome where
  history : List FTStatus
  blocked : Bool
  name : String
  filesField : List String
  size : Int
  progress : Int
  dest : Dir
  deriving Repr, DecidableEq

/-- The outcome of every early-error return of performReceive: status
error, record fields untouched beyond the initial "Receiving..." name,
destination directory as given. -/
def errOutcome (dest : Dir) : RecvOutcome :=
  ⟨[.preparing, .receiving, .error], false, "Receiving...", [], 0, 0, dest⟩

/-- performReceive: status receiving and name "Receiving..." first; the
five early local failures (Getwd, Chdir to the destination, MkdirTemp,
Chdir to the temporary area, croc.New) each set status error and
return, so they are collapsed into one guard; then the blocking
Receive call — the code races no timer against it, so a hanging call
leaves the unit blocked with no further transition; on success,
listFiles walks the temporary area (error on failure), an empty walk
is an error, and otherwise the finalization loop runs, ending in
status error on a failed move or in completed with the accumulated
fields and progress 100. -/
def performReceiveModel (tid destDir tmpDir : String) (env : RecvEnv) :
    RecvOutcome :=
  if env.getwdOk && env.chdirOk && env.mkTempOk && env.chdirTmpOk && env.newOk then
    match env.call with
    | .hang => ⟨[.preparing, .receiving], true, "Receiving...", [], 0, 0, env.dest0⟩
    | .fail => errOutcome env.dest0
    | .ok =>
        if env.listOk then
          if env.files.isEmpty then errOutcome env.dest0
          else
            let r := receiveFinalize tid destDir tmpDir env.files env.order env.dest0 env.answer
            if r.2 then
              ⟨[.preparing, .receiving, .completed], false, displayName r.1.names,
                r.1.names, r.1.total, 100, r.1.dest⟩
            else errOutcome r.1.dest
        else errOutcome env.dest0
  else errOutcome env.dest0

/-- Outcome environment of one performSend run (after the synchronous
stat succeeded): whether croc.New, croc.GetFilesInfo and Send succeed,
and the manifest reported by GetFilesInfo. -/
structure SendEnv where
  newOk : Bool
  infoOk : Bool
  manifest : List String
  sendOk : Bool
  deriving Repr, DecidableEq

/-- The successive values taken by transfer.Status during performSend:
waiting is set first (right after code generation); each failure of
croc.New, GetFilesInfo or Send sets error and returns; on success the
status becomes completed.  No statement of performSend ever assigns
the sending status. -/
def performSendHistory (e : SendEnv) : List FTStatus :=
  [.preparing, .waiting] ++
    (if e.newOk = false then [.error]
     else if e.infoOk = false then [.error]
     else if e.sendOk = false then [.error]
     else [.completed])

/-- The transition edges of the state machine exactly as claim C2
states it: preparing → waiting → sending → completed for a send,
preparing → receiving → completed for a receive, error from every
non-terminal state. -/
def claimEdge : FTStatus → FTStatus → Bool
  | .preparing, .waiting => true
  | .waiting, .sending => true
  | .sending, .completed => true
  | .preparing, .receiving => true
  | .receiving, .completed => true
  | .preparing, .error => true
  | .waiting, .error => true
  | .sending, .error => true
  | .receiving, .error => true
  | _, _ => false

/-- The transition edges the code actually realizes: identical to the
claim's machine except that a send goes straight from waiting to
completed — the sending status is never assigned. -/
def codeEdge : FTStatus → FTStatus → Bool
  | .preparing, .waiting => true
  | .waiting, .completed => true
  | .preparing, .receiving => true
  | .receiving, .completed => true
  | .preparing, .error => true
  | .waiting, .error => true
  | .receiving, .error => true
  | _, _ => false

/-- Every consecutive pair of the list is an edge. -/
def chainOk (edge : FTStatus → FTStatus → Bool) : List FTStatus → Bool
  | [] => true
  | [_] => true
  | a :: b :: t => edge a b && chainOk edge (b :: t)

/-- The two terminal statuses. -/
def isTerminal : FTStatus → Bool
  | .error => true
  | .completed => true
  | _ => false

/-- No terminal status is followed by anything: once completed or error
is reached, no further status value occurs. -/
def noInteriorTerminal : List FTStatus → Bool
  | [] => true
  | [_] => true
  | a :: b :: t => !(isTerminal a) && noInteriorTerminal (b :: t)

/-- A status history is legal for a machine when it starts at preparing
and follows the machine's edges. -/
def legalPath (edge : FTStatus → FTStatus → Bool) (l : List FTStatus) : Bool :=
  (match l.head? with
   | some .preparing => true
   | _ => false) && chainOk edge l

/-- C2 fails as stated: a fully successful send runs preparing →
waiting → completed; the status sending is never assigned, so the
realized sequence is not a legal path of the machine exactly as the
claim words it (waiting → completed is not one of its edges). -/
theorem claim2_counterexample :
    performSendHistory ⟨true, true, ["test.txt"], true⟩
        = [.preparing, .waiting, .completed]
    ∧ legalPath claimEdge [.preparing, .waiting, .completed] = false := by
  constructor <;> rfl

/-- Shape of every receive history: either still blocked after
receiving, or terminated in error, or terminated in completed. -/
theorem recvHistory_shape (tid destDir tmpDir : String) (env : RecvEnv) :
    (performReceiveModel tid destDir tmpDir env).history = [.preparing, .receiving]
    ∨ (performReceiveModel tid destDir tmpDir env).history = [.preparing, .receiving, .error]
    ∨ (performReceiveModel tid destDir tmpDir env).history
        = [.preparing, .receiving, .completed] := by
  unfold performReceiveModel
  split
  · cases env.call with
    | hang => simp
    | fail => simp [errOutcome]
    | ok =>
        dsimp only
        split
        · split
          · simp [errOutcome]
          · split
            · simp
            · simp [errOutcome]
        · simp [errOutcome]
  · simp [errOutcome]

/-- C2 (amended): every status history a transfer actually passes
through — any send environment, any receive environment — is a legal
path of the realized machine (send: preparing → waiting →
{completed, error}; receive: preparing → receiving →
{completed, error}; error from every non-terminal state; the sending
status never occurs), and no status follows a terminal one. -/
theorem claim2_amended_legal_paths (e : SendEnv) (tid destDir tmpDir : String)
    (env : RecvEnv) :
    (legalPath codeEdge (performSendHistory e)
      && noInteriorTerminal (performSendHistory e)) = true
    ∧ (legalPath codeEdge ((performReceiveModel tid destDir tmpDir env).history)
      && noInteriorTerminal ((performReceiveModel tid destDir tmpDir env).history)) = true := by
  constructor
  · obtain ⟨n, i, m, s⟩ := e
    cases n <;> cases i <;> cases s <;> rfl
  · rcases recvHistory_shape tid destDir tmpDir env with h | h | h <;> rw [h] <;> rfl

/-- A receive environment in which every local step succeeds but the
collaborator call never produces a result, while the destination
directory already holds one file. -/
def envHangEx : RecvEnv :=
  ⟨true, true, true, true, true, .hang, true, [], [],
    [("keep.txt", ⟨3, "k"⟩)], fun _ => "yes"⟩

/-- C3 fails as stated: the code races no timer against the Receive
call, so when the collaborator has produced no result by the claimed
30-second window (here: never), the transfer never reaches a final
status of error — the unit stays blocked and the last status value is
receiving.  The second half of the claim does hold on this run: the
destination directory is untouched. -/
theorem claim3_counterexample :
    (performReceiveModel "receive-0" "/dest" "/tmp/krokodyl-x" envHangEx).history
        = [.preparing, .receiving]
    ∧ (performReceiveModel "receive-0" "/dest" "/tmp/krokodyl-x" envHangEx).blocked = true
    ∧ (performReceiveModel "receive-0" "/dest" "/tmp/krokodyl-x" envHangEx).history.getLast?
        = some .receiving
    ∧ (performReceiveModel "receive-0" "/dest" "/tmp/krokodyl-x" envHangEx).dest
        = [("keep.txt", ⟨3, "k"⟩)] := by
  refine ⟨rfl, rfl, rfl, rfl⟩

/-- C3 (amended): the current code applies no timeout to the
collaborator receive call.  Whenever the local preparation succeeds
and the collaborator call never produces a result, the unit stays
blocked inside it indefinitely: the status remains receiving (it never
becomes error), and no file is placed in the destination directory —
materialization is confined to the temporary area, and no move is ever
reached. -/
theorem claim3_amended_no_timeout (tid destDir tmpDir : String) (env : RecvEnv)
    (h1 : env.getwdOk = true) (h2 : env.chdirOk = true) (h3 : env.mkTempOk = true)
    (h4 : env.chdirTmpOk = true) (h5 : env.newOk = true) (hc : env.call = .hang) :
    (performReceiveModel tid destDir tmpDir env).history = [.preparing, .receiving]
    ∧ (performReceiveModel tid destDir tmpDir env).blocked = true
    ∧ (performReceiveModel tid destDir tmpDir env).dest = env.dest0 := by
  simp [performReceiveModel, h1, h2, h3, h4, h5, hc]

/-- A second hanging environment, with a sender that would have
delivered files and an empty destination. -/
def envHangW : RecvEnv :=
  ⟨true, true, true, true, true, .hang, true, [⟨[], "w.bin", 9, "W"⟩],
    [⟨[], "w.bin", 9, "W"⟩], [], fun _ => "no"⟩

/-- Witness for C3 (amended) at a concrete input. -/
theorem claim3_amended_no_timeout_witness :
    (performReceiveModel "receive-1" "/d" "/t" envHangW).history = [.preparing, .receiving]
    ∧ (performReceiveModel "receive-1" "/d" "/t" envHangW).blocked = true
    ∧ (performReceiveModel "receive-1" "/d" "/t" envHangW).dest = envHangW.dest0 :=
  claim3_amended_no_timeout "receive-1" "/d" "/t" envHangW rfl rfl rfl rfl rfl rfl

theorem lookupDir_setDir_self (d : Dir) (n : String) (e : FileEntry) :
    lookupDir (setDir d n e) n = some e := by
  simp [setDir, lookupDir]

theorem lookupDir_removeDir_ne (d : Dir) (n m : String) (h : m ≠ n) :
    lookupDir (removeDir d n) m = lookupDir d m := by
  induction d with
  | nil => rfl
  | cons p rest ih =>
      simp only [removeDir]
      by_cases h1 : p.1 = n
      · have h2 : ¬ p.1 = m := fun hm => h (hm.symm.trans h1)
        rw [if_pos h1]
        simp only [lookupDir, if_neg h2]
        exact ih
      · rw [if_neg h1]
        simp only [lookupDir]
        by_cases h2 : p.1 = m
        · rw [if_pos h2, if_pos h2]
        · rw [if_neg h2, if_neg h2]
          exact ih

theorem lookupDir_removeDir_self (d : Dir) (n : String) :
    lookupDir (removeDir d n) n = none := by
  induction d with
  | nil => rfl
  | cons p rest ih =>
      by_cases h1 : p.1 = n
      · simp [removeDir, h1, ih]
      · simp [removeDir, lookupDir, h1, ih]

theorem lookupDir_setDir_ne (d : Dir) (n m : String) (e : FileEntry) (h : m ≠ n) :
    lookupDir (setDir d n e) m = lookupDir d m := by
  have h' : ¬ n = m := fun hx => h hx.symm
  simp [setDir, lookupDir, h', lookupDir_removeDir_ne d n m h]

theorem stepFile_handled (tid destDir tmpDir : String) (answer : String → String)
    (st : LoopState) (f : RFile) :
    (stepFile tid destDir tmpDir answer st f).1.handled = st.handled ++ [f.base] := by
  obtain ⟨d, tp, nm, tt, pr, hd⟩ := st
  simp only [stepFile, moveFile]
  rcases hdest : lookupDir d f.base with _ | e
  · rcases hsrc : lookupDir tp f.base with _ | src
    · simp
    · simp
  · by_cases ha : answer f.base = "yes"
    · rcases hsrc : lookupDir tp f.base with _ | src
      · simp [ha]
      · simp [ha]
    · simp [ha]

theorem stepFile_skip (tid destDir tmpDir : String) (answer : String → String)
    (st : LoopState) (f : RFile) (e : FileEntry)
    (he : lookupDir st.dest f.base = some e) (ha : answer f.base ≠ "yes") :
    (stepFile tid destDir tmpDir answer st f).2 = true
    ∧ (stepFile tid destDir tmpDir answer st f).1.dest = st.dest
    ∧ (stepFile tid destDir tmpDir answer st f).1.temp = st.temp
    ∧ (stepFile tid destDir tmpDir answer st f).1.names = st.names := by
  obtain ⟨d, tp, nm, tt, pr, hd⟩ := st
  simp only [stepFile] at *
  rw [he]
  simp [ha]

theorem stepFile_move (tid destDir tmpDir : String) (answer : String → String)
    (st : LoopState) (f : RFile) (src : FileEntry)
    (hm : lookupDir st.dest f.base = none
      ∨ (∃ e, lookupDir st.dest f.base = some e ∧ answer f.base = "yes"))
    (hs : lookupDir st.temp f.base = some src) :
    (stepFile tid destDir tmpDir answer st f).2 = true
    ∧ (stepFile tid destDir tmpDir answer st f).1.dest = setDir st.dest f.base src
    ∧ (stepFile tid destDir tmpDir answer st f).1.temp = removeDir st.temp f.base
    ∧ (stepFile tid destDir tmpDir answer st f).1.names = st.names ++ [f.base] := by
  obtain ⟨d, tp, nm, tt, pr, hd⟩ := st
  simp only [stepFile, moveFile] at *
  rcases hm with hnone | ⟨e, he, hyes⟩
  · rw [hnone, hs]
    simp
  · rw [he, hs]
    simp [hyes]

theorem stepFile_move_fail (tid destDir tmpDir : String) (answer : String → String)
    (st : LoopState) (f : RFile)
    (hm : lookupDir st.dest f.base = none
      ∨ (∃ e, lookupDir st.dest f.base = some e ∧ answer f.base = "yes"))
    (hs : lookupDir st.temp f.base = none) :
    (stepFile tid destDir tmpDir answer st f).2 = false
    ∧ (stepFile tid destDir tmpDir answer st f).1.dest = st.dest
    ∧ (stepFile tid destDir tmpDir answer st f).1.temp = st.temp
    ∧ (stepFile tid destDir tmpDir answer st f).1.names = st.names := by
  obtain ⟨d, tp, nm, tt, pr, hd⟩ := st
  simp only [stepFile, moveFile] at *
  rcases hm with hnone | ⟨e, he, hyes⟩
  · rw [hnone, hs]
    simp
  · rw [he, hs]
    simp [hyes]

theorem stepFile_frame (tid destDir tmpDir : String) (answer : String → String)
    (st : LoopState) (f : RFile) (b : String) (hb : f.base ≠ b) :
    lookupDir (stepFile tid destDir tmpDir answer st f).1.dest b = lookupDir st.dest b
    ∧ ((b ∈ (stepFile tid destDir tmpDir answer st f).1.names) ↔ b ∈ st.names) := by
  have hb' : b ≠ f.base := Ne.symm hb
  obtain ⟨d, tp, nm, tt, pr, hd⟩ := st
  simp only [stepFile, moveFile]
  rcases hdest : lookupDir d f.base with _ | e
  · rcases hsrc : lookupDir tp f.base with _ | src
    · simp
    · simp [lookupDir_setDir_ne d f.base b src hb', hb']
  · by_cases ha : answer f.base = "yes"
    · rcases hsrc : lookupDir tp f.base with _ | src
      · simp [ha]
      · simp [ha, lookupDir_setDir_ne d f.base b src hb', hb']
    · simp [ha]

theorem runLoop_frame (tid destDir tmpDir : String) (answer : String → String) :
    ∀ (order : List RFile) (st : LoopState) (b : String),
      (∀ f ∈ order, f.base ≠ b) →
      lookupDir (runLoop tid destDir tmpDir answer st order).1.dest b = lookupDir st.dest b
      ∧ ((b ∈ (runLoop tid destDir tmpDir answer st order).1.names) ↔ b ∈ st.names) := by
  intro order
  induction order with
  | nil => intro st b _; exact ⟨rfl, Iff.rfl⟩
  | cons f rest ih =>
      intro st b hall
      have hstep := stepFile_frame tid destDir tmpDir answer st f b (hall f (by simp))
      simp only [runLoop]
      by_cases hok : (stepFile tid destDir tmpDir answer st f).2 = true
      · rw [if_pos hok]
        have hrest := ih (stepFile tid destDir tmpDir answer st f).1 b
          (fun g hg => hall g (by simp [hg]))
        exact ⟨hrest.1.trans hstep.1, hrest.2.trans hstep.2⟩
      · rw [if_neg hok]
        exact hstep

theorem runLoop_handled (tid destDir tmpDir : String) (answer : String → String) :
    ∀ (order : List RFile) (st : LoopState),
      (runLoop tid destDir tmpDir answer st order).2 = true →
      (runLoop tid destDir tmpDir answer st order).1.handled
        = st.handled ++ order.map RFile.base := by
  intro order
  induction order with
  | nil => intro st _; simp [runLoop]
  | cons f rest ih =>
      intro st hok2
      simp only [runLoop] at *
      by_cases hok : (stepFile tid destDir tmpDir answer st f).2 = true
      · rw [if_pos hok] at hok2 ⊢
        rw [ih _ hok2, stepFile_handled]
        simp
      · rw [if_neg hok] at hok2
        exact absurd hok2 (by simp)

theorem runLoop_missing (tid destDir tmpDir : String) (answer : String → String) :
    ∀ (order : List RFile) (st : LoopState) (f : RFile),
      f ∈ order →
      lookupDir st.temp f.base = none →
      lookupDir st.dest f.base = none →
      (runLoop tid destDir tmpDir answer st order).2 = false := by
  intro order
  induction order with
  | nil => intro st f hf; exact absurd hf (List.not_mem_nil f)
  | cons g rest ih =>
      intro st f hf htemp hdest
      simp only [runLoop]
      rcases hgd : lookupDir st.dest g.base with _ | e
      · rcases hgs : lookupDir st.temp g.base with _ | src
        · have hstep := stepFile_move_fail tid destDir tmpDir answer st g (Or.inl hgd) hgs
          rw [if_neg (by simp [hstep.1])]
        · have hne : g.base ≠ f.base := by
            intro hEq
            rw [hEq, htemp] at hgs
            exact Option.noConfusion hgs
          have hf' : f ∈ rest := by
            rcases List.mem_cons.mp hf with h | h
            · exact absurd (congrArg RFile.base h.symm) hne
            · exact h
          have hstep := stepFile_move tid destDir tmpDir answer st g src (Or.inl hgd) hgs
          rw [if_pos hstep.1]
          refine ih _ f hf' ?_ ?_
          · rw [hstep.2.2.1, lookupDir_removeDir_ne _ _ _ (Ne.symm hne)]
            exact htemp
          · rw [hstep.2.1, lookupDir_setDir_ne _ _ _ _ (Ne.symm hne)]
            exact hdest
      · by_cases ha : answer g.base = "yes"
        · rcases hgs : lookupDir st.temp g.base with _ | src
          · have hstep := stepFile_move_fail tid destDir tmpDir answer st g
              (Or.inr ⟨e, hgd, ha⟩) hgs
            rw [if_neg (by simp [hstep.1])]
          · have hne : g.base ≠ f.base := by
              intro hEq
              rw [hEq, htemp] at hgs
              exact Option.noConfusion hgs
            have hf' : f ∈ rest := by
              rcases List.mem_cons.mp hf with h | h
              · exact absurd (congrArg RFile.base h.symm) hne
              · exact h
            have hstep := stepFile_move tid destDir tmpDir answer st g src
              (Or.inr ⟨e, hgd, ha⟩) hgs
            rw [if_pos hstep.1]
            refine ih _ f hf' ?_ ?_
            · rw [hstep.2.2.1, lookupDir_removeDir_ne _ _ _ (Ne.symm hne)]
              exact htemp
            · rw [hstep.2.1, lookupDir_setDir_ne _ _ _ _ (Ne.symm hne)]
              exact hdest
        · have hstep := stepFile_skip tid destDir tmpDir answer st g e hgd ha
          have hf' : f ∈ rest := by
            rcases List.mem_cons.mp hf with h | h
            · subst h
              rw [hdest] at hgd
              exact Option.noConfusion hgd
            · exact h
          rw [if_pos hstep.1]
          refine ih _ f hf' ?_ ?_
          · rw [hstep.2.2.1]
            exact htemp
          · rw [hstep.2.1]
            exact hdest

theorem runLoop_flat (tid destDir tmpDir : String) (answer : String → String) :
    ∀ (order : List RFile) (st : LoopState),
      ((order.map RFile.base).Nodup) →
      (∀ g ∈ order, lookupDir st.temp g.base = some ⟨g.size, g.content⟩) →
      (∀ g ∈ order, g.base ∉ st.names) →
      (runLoop tid destDir tmpDir answer st order).2 = true
      ∧ ∀ g ∈ order,
          lookupDir (runLoop tid destDir tmpDir answer st order).1.dest g.base
              = (match lookupDir st.dest g.base with
                 | some e =>
                     if answer g.base = "yes" then some ⟨g.size, g.content⟩ else some e
                 | none => some ⟨g.size, g.content⟩)
          ∧ ((g.base ∈ (runLoop tid destDir tmpDir answer st order).1.names)
              ↔ (lookupDir st.dest g.base = none ∨ answer g.base = "yes")) := by
  intro order
  induction order with
  | nil =>
      intro st _ _ _
      exact ⟨rfl, fun g hg => absurd hg (List.not_mem_nil g)⟩
  | cons f rest ih =>
      intro st hnd htmp hnm
      have hnd0 : (∀ x ∈ rest, ¬ x.base = f.base) ∧ (rest.map RFile.base).Nodup := by
        simpa using hnd
      have hrestne : ∀ g ∈ rest, g.base ≠ f.base := fun g hg => hnd0.1 g hg
      have htmpf : lookupDir st.temp f.base = some ⟨f.size, f.content⟩ := htmp f (by simp)
      have hnmf : f.base ∉ st.names := hnm f (by simp)
      simp only [runLoop]
      by_cases hmov : lookupDir st.dest f.base = none
        ∨ (∃ e, lookupDir st.dest f.base = some e ∧ answer f.base = "yes")
      · -- f is moved
        have hstep := stepFile_move tid destDir tmpDir answer st f _ hmov htmpf
        rw [if_pos hstep.1]
        have htmp' : ∀ g ∈ rest,
            lookupDir (stepFile tid destDir tmpDir answer st f).1.temp g.base
              = some ⟨g.size, g.content⟩ := by
          intro g hg
          rw [hstep.2.2.1, lookupDir_removeDir_ne _ _ _ (hrestne g hg)]
          exact htmp g (by simp [hg])
        have hnm' : ∀ g ∈ rest,
            g.base ∉ (stepFile tid destDir tmpDir answer st f).1.names := by
          intro g hg
          rw [hstep.2.2.2]
          simp [hnm g (by simp [hg]), hrestne g hg]
        obtain ⟨hok2, hper⟩ := ih _ hnd0.2 htmp' hnm'
        refine ⟨hok2, ?_⟩
        intro g hg
        rcases List.mem_cons.mp hg with h | h
        · subst h
          have hfr := runLoop_frame tid destDir tmpDir answer rest
            (stepFile tid destDir tmpDir answer st g).1 g.base hrestne
          constructor
          · rw [hfr.1, hstep.2.1, lookupDir_setDir_self]
            rcases hmov with hx | ⟨e, hx, hy⟩
            · rw [hx]
            · rw [hx]
              simp [hy]
          · rw [hfr.2, hstep.2.2.2]
            have hrhs : lookupDir st.dest g.base = none ∨ answer g.base = "yes" := by
              rcases hmov with hx | ⟨e, hx, hy⟩
              · exact Or.inl hx
              · exact Or.inr hy
            exact iff_of_true (List.mem_append.mpr (Or.inr (by simp))) hrhs
        · have hg' := hper g h
          have hdeq : lookupDir (stepFile tid destDir tmpDir answer st f).1.dest g.base
              = lookupDir st.dest g.base := by
            rw [hstep.2.1, lookupDir_setDir_ne _ _ _ _ (hrestne g h)]
          rw [hdeq] at hg'
          exact hg'
      · -- f collides and the answer is not "yes": skipped
        push_neg at hmov
        obtain ⟨e, he⟩ : ∃ e, lookupDir st.dest f.base = some e := by
          rcases hx : lookupDir st.dest f.base with _ | e
          · exact absurd hx hmov.1
          · exact ⟨e, rfl⟩
        have ha : answer f.base ≠ "yes" := fun hy => hmov.2 e he hy
        have hstep := stepFile_skip tid destDir tmpDir answer st f e he ha
        rw [if_pos hstep.1]
        have htmp' : ∀ g ∈ rest,
            lookupDir (stepFile tid destDir tmpDir answer st f).1.temp g.base
              = some ⟨g.size, g.content⟩ := by
          intro g hg
          rw [hstep.2.2.1]
          exact htmp g (by simp [hg])
        have hnm' : ∀ g ∈ rest,
            g.base ∉ (stepFile tid destDir tmpDir answer st f).1.names := by
          intro g hg
          rw [hstep.2.2.2]
          exact hnm g (by simp [hg])
        obtain ⟨hok2, hper⟩ := ih _ hnd0.2 htmp' hnm'
        refine ⟨hok2, ?_⟩
        intro g hg
        rcases List.mem_cons.mp hg with h | h
        · subst h
          have hfr := runLoop_frame tid destDir tmpDir answer rest
            (stepFile tid destDir tmpDir answer st g).1 g.base hrestne
          constructor
          · rw [hfr.1, hstep.2.1, he]
            simp [ha]
          · rw [hfr.2, hstep.2.2.2]
            constructor
            · intro hx
              exact absurd hx hnmf
            · intro hx
              rcases hx with hx | hx
              · rw [he] at hx
                exact Option.noConfusion hx
              · exact absurd hx ha
        · have hg' := hper g h
          have hdeq : lookupDir (stepFile tid destDir tmpDir answer st f).1.dest g.base
              = lookupDir st.dest g.base := by
            rw [hstep.2.1]
          rw [hdeq] at hg'
          exact hg'

theorem initTemp_cons_top (h : RFile) (rest : List RFile) (hh : h.dirs = []) :
    initTemp (h :: rest) = (h.base, ⟨h.size, h.content⟩) :: initTemp rest := by
  simp [initTemp, List.filterMap_cons, hh]

theorem initTemp_cons_nested (h : RFile) (rest : List RFile) (hh : h.dirs ≠ []) :
    initTemp (h :: rest) = initTemp rest := by
  simp [initTemp, List.filterMap_cons, hh]

theorem initTemp_lookup (files : List RFile) :
    ((files.map RFile.base).Nodup) → (∀ f ∈ files, f.dirs = []) →
    ∀ g ∈ files, lookupDir (initTemp files) g.base = some ⟨g.size, g.content⟩ := by
  induction files with
  | nil => intro _ _ g hg; exact absurd hg (List.not_mem_nil g)
  | cons h rest ih =>
      intro hnd htop g hg
      have hnd0 : (∀ x ∈ rest, ¬ x.base = h.base) ∧ (rest.map RFile.base).Nodup := by
        simpa using hnd
      have hhtop : h.dirs = [] := htop h (by simp)
      rw [initTemp_cons_top h rest hhtop]
      rcases List.mem_cons.mp hg with he | he
      · subst he
        simp [lookupDir]
      · have hne : ¬ h.base = g.base := fun hEq => hnd0.1 g he hEq.symm
        simp only [lookupDir]
        rw [if_neg hne]
        exact ih hnd0.2 (fun x hx => htop x (by simp [hx])) g he

theorem initTemp_none (files : List RFile) (b : String) :
    (∀ g ∈ files, g.dirs = [] → g.base ≠ b) → lookupDir (initTemp files) b = none := by
  induction files with
  | nil => intro _; rfl
  | cons h rest ih =>
      intro hall
      by_cases hh : h.dirs = []
      · rw [initTemp_cons_top h rest hh]
        simp only [lookupDir]
        rw [if_neg (hall h (by simp) hh)]
        exact ih fun g hg => hall g (by simp [hg])
      · rw [initTemp_cons_nested h rest hh]
        exact ih fun g hg => hall g (by simp [hg])

/-- C5: in a receive whose materialized files are all top level with
distinct base names, for every filename collision the operator's
decision gates the move exactly as claimed: an answer other than the
literal "yes" leaves the existing destination entry untouched and
keeps the file's name out of the final fileNames, while the transfer
finishes without entering the error state; the literal "yes" — and
only it — replaces the destination entry with the incoming file; files
without a collision are always moved. -/
theorem claim5_only_yes_overwrites (tid destDir tmpDir : String)
    (files order : List RFile) (dest0 : Dir) (answer : String → String)
    (hperm : order.Perm files)
    (htop : ∀ f ∈ files, f.dirs = [])
    (hnd : (files.map RFile.base).Nodup) :
    (receiveFinalize tid destDir tmpDir files order dest0 answer).2 = true
    ∧ (∀ f ∈ order, ∀ e, lookupDir dest0 f.base = some e → answer f.base ≠ "yes" →
        lookupDir (receiveFinalize tid destDir tmpDir files order dest0 answer).1.dest f.base
            = some e
        ∧ f.base ∉ (receiveFinalize tid destDir tmpDir files order dest0 answer).1.names)
    ∧ (∀ f ∈ order, ∀ e, lookupDir dest0 f.base = some e → answer f.base = "yes" →
        lookupDir (receiveFinalize tid destDir tmpDir files order dest0 answer).1.dest f.base
            = some ⟨f.size, f.content⟩
        ∧ f.base ∈ (receiveFinalize tid destDir tmpDir files order dest0 answer).1.names)
    ∧ (∀ f ∈ order, lookupDir dest0 f.base = none →
        lookupDir (receiveFinalize tid destDir tmpDir files order dest0 answer).1.dest f.base
            = some ⟨f.size, f.content⟩
        ∧ f.base ∈ (receiveFinalize tid destDir tmpDir files order dest0 answer).1.names) := by
  simp only [receiveFinalize]
  have hndo : (order.map RFile.base).Nodup := ((hperm.map RFile.base).nodup_iff).mpr hnd
  have htmp0 : ∀ g ∈ order,
      lookupDir (initTemp files) g.base = some ⟨g.size, g.content⟩ :=
    fun g hg => initTemp_lookup files hnd htop g (hperm.mem_iff.mp hg)
  obtain ⟨hok, hper⟩ := runLoop_flat tid destDir tmpDir answer order
    ⟨dest0, initTemp files, [], 0, [], []⟩ hndo htmp0 (by intro g _; simp)
  refine ⟨hok, ?_, ?_, ?_⟩
  · intro f hf e he ha
    have h := hper f hf
    rw [show (⟨dest0, initTemp files, [], 0, [], []⟩ : LoopState).dest = dest0 from rfl] at h
    rw [he] at h
    refine ⟨?_, ?_⟩
    · rw [h.1]
      simp [ha]
    · rw [h.2]
      simp [ha]
  · intro f hf e he ha
    have h := hper f hf
    rw [show (⟨dest0, initTemp files, [], 0, [], []⟩ : LoopState).dest = dest0 from rfl] at h
    rw [he] at h
    refine ⟨?_, ?_⟩
    · rw [h.1]
      simp [ha]
    · rw [h.2]
      simp [ha]
  · intro f hf he
    have h := hper f hf
    rw [show (⟨dest0, initTemp files, [], 0, [], []⟩ : LoopState).dest = dest0 from rfl] at h
    rw [he] at h
    refine ⟨?_, ?_⟩
    · rw [h.1]
    · rw [h.2]
      simp

/-- The spec's collision scenario: the destination already holds
report.pdf with a different size, the incoming batch holds report.pdf
and one fresh file, the operator answers "no" to every prompt. -/
def exFilesC5 : List RFile := [⟨[], "report.pdf", 10, "new"⟩, ⟨[], "notes.txt", 4, "n"⟩]

def exDestC5 : Dir := [("report.pdf", ⟨5, "old"⟩)]

def exAnswerC5 : String → String := fun _ => "no"

/-- Witness for C5 at the spec's report.pdf scenario: answering "no"
completes the transfer, leaves the old report.pdf in place and keeps
"report.pdf" out of the final fileNames. -/
theorem claim5_only_yes_overwrites_witness :
    (receiveFinalize "receive-0" "/home/u/Downloads" "/tmp/krokodyl-1"
        exFilesC5 exFilesC5 exDestC5 exAnswerC5).2 = true
    ∧ lookupDir (receiveFinalize "receive-0" "/home/u/Downloads" "/tmp/krokodyl-1"
        exFilesC5 exFilesC5 exDestC5 exAnswerC5).1.dest "report.pdf" = some ⟨5, "old"⟩
    ∧ "report.pdf" ∉ (receiveFinalize "receive-0" "/home/u/Downloads" "/tmp/krokodyl-1"
        exFilesC5 exFilesC5 exDestC5 exAnswerC5).1.names := by
  have h := claim5_only_yes_overwrites "receive-0" "/home/u/Downloads" "/tmp/krokodyl-1"
    exFilesC5 exFilesC5 exDestC5 exAnswerC5 (List.Perm.refl _) (by decide) (by decide)
  have hs := h.2.1 ⟨[], "report.pdf", 10, "new"⟩ (by decide) ⟨5, "old"⟩ rfl (by decide)
  exact ⟨h.1, hs.1, hs.2⟩

/-- A receive in which the collaborator materializes a single nested
file whose base name collides with an existing destination file, and
the operator declines the overwrite. -/
def envNestedSkip : RecvEnv :=
  ⟨true, true, true, true, true, .ok, true,
    [⟨["sub"], "report.pdf", 10, "new"⟩], [⟨["sub"], "report.pdf", 10, "new"⟩],
    [("report.pdf", ⟨5, "old"⟩)], fun _ => "no"⟩

/-- C10 fails as universally stated: a file materialized inside a
subdirectory does not force the transfer into the error state, because
a colliding nested file can be skipped by the overwrite decision
before its move is ever attempted.  Here the only materialized file is
nested, yet the transfer terminates completed. -/
theorem claim10_counterexample :
    (∃ f ∈ envNestedSkip.files, f.dirs ≠ [])
    ∧ (performReceiveModel "receive-0" "/dest" "/tmp/krokodyl-2" envNestedSkip).history
        = [.preparing, .receiving, .completed] := by
  refine ⟨⟨⟨["sub"], "report.pdf", 10, "new"⟩, by decide, by decide⟩, rfl⟩

/-- C10 (amended): the move source is always computed as the temporary
directory joined with the file's base name, although the walk is
recursive; hence whenever some materialized file lies in a
subdirectory, its base name matches no top-level file of the temporary
area, and it is not skipped by an overwrite decision (no destination
file of that name exists), the rename operates on a path where no file
exists and the whole transfer terminates with status error rather than
completed.  The last hypothesis keeps every rename source a plain
file path (no file's base name doubles as a top-level subdirectory
name of the temporary area), which is the domain the flat rename model
embeds faithfully. -/
theorem claim10_amended_nested_file_errors (tid destDir tmpDir : String)
    (env : RecvEnv)
    (h1 : env.getwdOk = true) (h2 : env.chdirOk = true) (h3 : env.mkTempOk = true)
    (h4 : env.chdirTmpOk = true) (h5 : env.newOk = true)
    (hc : env.call = .ok) (hl : env.listOk = true)
    (f : RFile) (hf : f ∈ env.order) (hfe : f ∈ env.files)
    (hnest : f.dirs ≠ [])
    (hnotop : ∀ g ∈ env.files, g.dirs = [] → g.base ≠ f.base)
    (hnocol : lookupDir env.dest0 f.base = none)
    (hclash : ∀ g ∈ env.order, ∀ h ∈ env.order, g.base ∉ h.dirs) :
    (performReceiveModel tid destDir tmpDir env).history
      = [.preparing, .receiving, .error] := by
  have hne : env.files.isEmpty = false := by
    cases henv : env.files with
    | nil => rw [henv] at hfe; exact absurd hfe (List.not_mem_nil f)
    | cons a t => rfl
  have hloop : (runLoop tid destDir tmpDir env.answer
      ⟨env.dest0, initTemp env.files, [], 0, [], []⟩ env.order).2 = false :=
    runLoop_missing tid destDir tmpDir env.answer env.order
      ⟨env.dest0, initTemp env.files, [], 0, [], []⟩ f hf
      (initTemp_none env.files f.base hnotop) hnocol
  simp [performReceiveModel, receiveFinalize, h1, h2, h3, h4, h5, hc, hl, hne,
    hloop, errOutcome]

/-- A receive materializing one nested file (clean of collisions) and
one unrelated top-level file. -/
def envNestedErr : RecvEnv :=
  ⟨true, true, true, true, true, .ok, true,
    [⟨["sub"], "data.bin", 4, "X"⟩, ⟨[], "top.txt", 2, "Y"⟩],
    [⟨["sub"], "data.bin", 4, "X"⟩, ⟨[], "top.txt", 2, "Y"⟩],
    [], fun _ => "yes"⟩

/-- Witness for C10 (amended) at a concrete input. -/
theorem claim10_amended_nested_file_errors_witness :
    (performReceiveModel "receive-0" "/dest" "/tmp/krokodyl-3" envNestedErr).history
      = [.preparing, .receiving, .error] :=
  claim10_amended_nested_file_errors "receive-0" "/dest" "/tmp/krokodyl-3" envNestedErr
    rfl rfl rfl rfl rfl rfl rfl
    ⟨["sub"], "data.bin", 4, "X"⟩ (by decide) (by decide) (by decide) (by decide) rfl
    (by decide)

/-- Two top-level files with distinct names, both already present at
the destination, processed under the all-"no" operator. -/
def fileA : RFile := ⟨[], "a.txt", 1, "A"⟩

def fileB : RFile := ⟨[], "b.txt", 2, "B"⟩

def destAB : Dir := [("a.txt", ⟨7, "AA"⟩), ("b.txt", ⟨8, "BB"⟩)]

def ansNo : String → String := fun _ => "no"

/-- C4 fails as stated: the finalization iterates the Go map returned
by listFiles, whose iteration order the language leaves unspecified
(and the runtime randomizes), so the visit order is not a function of
the file set.  Two runs over the same two-file set, under two
iteration orders that are permutations of one another, handle the
files — and emit their overwrite prompts — in different orders. -/
theorem claim4_counterexample :
    [fileB, fileA].Perm [fileA, fileB]
    ∧ ((receiveFinalize "receive-0" "/d" "/t" [fileA, fileB] [fileA, fileB]
        destAB ansNo).1.prompts.map OverwritePrompt.fileName) = ["a.txt", "b.txt"]
    ∧ ((receiveFinalize "receive-0" "/d" "/t" [fileA, fileB] [fileB, fileA]
        destAB ansNo).1.prompts.map OverwritePrompt.fileName) = ["b.txt", "a.txt"]
    ∧ (["a.txt", "b.txt"] : List String) ≠ ["b.txt", "a.txt"] := by
  refine ⟨by decide, rfl, rfl, by decide⟩

/-- C4 (amended): the visit order of receive finalization is exactly
the iteration order of the listFiles map — an unspecified permutation
of the materialized file set, not a deterministic function of it; each
completed run still handles every enumerated file exactly once, in
that iteration order. -/
theorem claim4_amended_order_is_map_iteration (tid destDir tmpDir : String)
    (files order : List RFile) (dest0 : Dir) (answer : String → String)
    (h : (receiveFinalize tid destDir tmpDir files order dest0 answer).2 = true) :
    (receiveFinalize tid destDir tmpDir files order dest0 answer).1.handled
      = order.map RFile.base := by
  have hh := runLoop_handled tid destDir tmpDir answer order
    ⟨dest0, initTemp files, [], 0, [], []⟩ h
  simpa [receiveFinalize] using hh

/-- Witness for C4 (amended) at a concrete input. -/
theorem claim4_amended_order_is_map_iteration_witness :
    (receiveFinalize "receive-0" "/d" "/t" [fileA, fileB] [fileB, fileA]
        destAB ansNo).1.handled = ["b.txt", "a.txt"] := by
  have h := claim4_amended_order_is_map_iteration "receive-0" "/d" "/t"
    [fileA, fileB] [fileB, fileA] destAB ansNo rfl
  simpa [fileA, fileB] using h

/-- C9: getFileDiff fails exactly when at least one of the two paths
cannot be read; when both are readable and their byte contents are
identical it returns the fixed sentinel "Files are identical."; and
when the contents differ its output is precisely the two headers
"--- a/" plus the first file's base name and "+++ b/" plus the second
file's base name, followed by the coarse marker — in particular the
text contains both headers. -/
theorem claim9_getFileDiff_spec (fs : String → Option String) (p1 p2 : String) :
    ((getFileDiff fs p1 p2 = none) ↔ (fs p1 = none ∨ fs p2 = none))
    ∧ (∀ c, fs p1 = some c → fs p2 = some c →
        getFileDiff fs p1 p2 = some "Files are identical.")
    ∧ (∀ c1 c2, fs p1 = some c1 → fs p2 = some c2 → c1 ≠ c2 →
        getFileDiff fs p1 p2
          = some ("--- a/" ++ filepathBase p1 ++ "\n" ++ "+++ b/" ++ filepathBase p2
              ++ "\n" ++ "File content differs.")) := by
  refine ⟨?_, ?_, ?_⟩
  · unfold getFileDiff
    rcases h1 : fs p1 with _ | c1
    · simp
    · rcases h2 : fs p2 with _ | c2
      · simp
      · by_cases he : c1 = c2 <;> simp [he]
  · intro c h1 h2
    unfold getFileDiff
    rw [h1, h2]
    simp
  · intro c1 c2 h1 h2 hne
    unfold getFileDiff
    rw [h1, h2]
    simp [hne]

/-- A tiny read oracle: two readable files with different contents. -/
def fsEx : String → Option String :=
  fun p => if p = "/a/f.txt" then some "x" else if p = "/b/g.txt" then some "y" else none

/-- Witness for C9 at concrete inputs: the same path twice yields the
sentinel, an unreadable path yields failure, and two different
contents yield the two headers. -/
theorem claim9_getFileDiff_spec_witness :
    getFileDiff fsEx "/a/f.txt" "/a/f.txt" = some "Files are identical."
    ∧ getFileDiff fsEx "/a/f.txt" "/missing" = none
    ∧ getFileDiff fsEx "/a/f.txt" "/b/g.txt"
        = some ("--- a/" ++ filepathBase "/a/f.txt" ++ "\n" ++ "+++ b/"
            ++ filepathBase "/b/g.txt" ++ "\n" ++ "File content differs.") := by
  refine ⟨?_, ?_, ?_⟩
  · exact (claim9_getFileDiff_spec fsEx "/a/f.txt" "/a/f.txt").2.1 "x" rfl rfl
  · exact ((claim9_getFileDiff_spec fsEx "/a/f.txt" "/missing").1).mpr (Or.inr rfl)
  · exact (claim9_getFileDiff_spec fsEx "/a/f.txt" "/b/g.txt").2.2 "x" "y" rfl rfl
      (by decide)

end Krokodyl
